import Mathlib

/-!
Shallow embedding of the core backtesting subsystem of the
`trading-platform-cpp` repository: the strategy state machine
(`strategy_engine/src/strategy.cpp`), the condition algebra leaf
`IndicatorCrossCondition` (`strategy_engine/src/indicator_cross_condition.cpp`),
the portfolio bookkeeping (`backtester/src/portfolio.cpp`) and the event
loop with its execution translator (`backtester/src/backtester.cpp`).

C++ `double` is modelled as `ℚ`, `long long` as `Int`,
`core::Timestamp` as `Int`, and `std::map<std::string, T>` as an
association list `List (String × T)` with first-match lookup,
replace-on-insert and erase-first semantics (a `std::map` never holds
duplicate keys, so on the states reachable by the program the two agree).
-/

namespace Trading

/-- `core::SignalAction` (core/include/datatypes.hpp). -/
inductive SignalAction where
  | none
  | enterLong
  | exitLong
  | enterShort
  | exitShort
deriving DecidableEq, Repr

/-- `core::PositionState` (core/include/datatypes.hpp): `None` is flat. -/
inductive PositionState where
  | none
  | long
  | short
deriving DecidableEq, Repr

/-- `core::Candle` (core/include/datatypes.hpp). -/
structure Candle where
  timestamp : Int
  open_ : ℚ
  high : ℚ
  low : ℚ
  close : ℚ
  volume : Int
  open_interest : Option Int := Option.none
deriving DecidableEq, Repr

/-- `std::map::find` on the association-list model. -/
def mapFind? {β : Type} : List (String × β) → String → Option β
  | [], _ => Option.none
  | (k', v) :: rest, k => if k' = k then Option.some v else mapFind? rest k

/-- `std::map::operator[]` assignment: replace the binding if the key is
present, otherwise add it. -/
def mapInsert {β : Type} : List (String × β) → String → β → List (String × β)
  | [], k, v => [(k, v)]
  | (k', v') :: rest, k, v =>
      if k' = k then (k, v) :: rest else (k', v') :: mapInsert rest k v

/-- `std::map::erase` by key (removes the first binding for the key). -/
def mapErase {β : Type} : List (String × β) → String → List (String × β)
  | [], _ => []
  | (k', v') :: rest, k => if k' = k then rest else (k', v') :: mapErase rest k

/-- The keys of the association list are pairwise distinct, as they always
are in a `std::map`. -/
abbrev NodupKeys {β : Type} (m : List (String × β)) : Prop :=
  m.Pairwise (fun a b => a.1 ≠ b.1)

theorem mapFind?_mapInsert_self {β : Type} (m : List (String × β)) (k : String) (v : β) :
    mapFind? (mapInsert m k v) k = Option.some v := by
  induction m with
  | nil => simp [mapInsert, mapFind?]
  | cons hd tl ih =>
      by_cases h : hd.1 = k
      · simp [mapInsert, h, mapFind?]
      · simp [mapInsert, h, mapFind?, ih]

theorem mapFind?_mapInsert_ne {β : Type} (m : List (String × β)) (k k' : String) (v : β)
    (h : k' ≠ k) : mapFind? (mapInsert m k v) k' = mapFind? m k' := by
  have hk'' : ¬(k = k') := fun e => h e.symm
  induction m with
  | nil => simp [mapInsert, mapFind?, hk'']
  | cons hd tl ih =>
      obtain ⟨k₀, v₀⟩ := hd
      by_cases hk : k₀ = k
      · subst hk
        simp [mapInsert, mapFind?, hk'']
      · by_cases hk' : k₀ = k'
        · simp [mapInsert, hk, mapFind?, hk', h]
        · simp [mapInsert, hk, mapFind?, hk', ih]

theorem mapFind?_mapErase_ne {β : Type} (m : List (String × β)) (k k' : String)
    (h : k' ≠ k) : mapFind? (mapErase m k) k' = mapFind? m k' := by
  have hk'' : ¬(k = k') := fun e => h e.symm
  induction m with
  | nil => simp [mapErase]
  | cons hd tl ih =>
      obtain ⟨k₀, v₀⟩ := hd
      by_cases hk : k₀ = k
      · subst hk
        simp [mapErase, mapFind?, hk'', ih]
      · by_cases hk' : k₀ = k'
        · simp [mapErase, hk, mapFind?, hk', h]
        · simp [mapErase, hk, mapFind?, hk', ih]

theorem mem_mapInsert {β : Type} {m : List (String × β)} {k : String} {v : β}
    {x : String × β} (hx : x ∈ mapInsert m k v) : x = (k, v) ∨ x ∈ m := by
  induction m with
  | nil =>
      simp only [mapInsert, List.mem_singleton] at hx
      exact Or.inl hx
  | cons hd tl ih =>
      by_cases h : hd.1 = k
      · simp only [mapInsert, h, if_true, List.mem_cons] at hx
        rcases hx with hx | hx
        · exact Or.inl hx
        · exact Or.inr (List.mem_cons_of_mem _ hx)
      · simp only [mapInsert, h, if_false, List.mem_cons] at hx
        rcases hx with hx | hx
        · exact Or.inr (hx ▸ List.mem_cons_self _ _)
        · rcases ih hx with h' | h'
          · exact Or.inl h'
          · exact Or.inr (List.mem_cons_of_mem _ h')

theorem mem_mapErase {β : Type} {m : List (String × β)} {k : String}
    {x : String × β} (hx : x ∈ mapErase m k) : x ∈ m := by
  induction m with
  | nil => simp [mapErase] at hx
  | cons hd tl ih =>
      by_cases h : hd.1 = k
      · simp only [mapErase, h, if_true] at hx
        exact List.mem_cons_of_mem _ hx
      · simp only [mapErase, h, if_false, List.mem_cons] at hx
        rcases hx with hx | hx
        · exact hx ▸ List.mem_cons_self _ _
        · exact List.mem_cons_of_mem _ (ih hx)

theorem mapErase_mapInsert {β : Type} (m : List (String × β)) (k : String) (v : β) :
    mapErase (mapInsert m k v) k = mapErase m k := by
  induction m with
  | nil => simp [mapInsert, mapErase]
  | cons hd tl ih =>
      by_cases h : hd.1 = k
      · simp [mapInsert, h, mapErase]
      · simp [mapInsert, h, mapErase, ih]

theorem mapFind?_eq_none_iff {β : Type} (m : List (String × β)) (k : String) :
    mapFind? m k = Option.none ↔ ∀ x ∈ m, x.1 ≠ k := by
  induction m with
  | nil => simp [mapFind?]
  | cons hd tl ih =>
      by_cases h : hd.1 = k
      · simp [mapFind?, h]
      · simp [mapFind?, h, ih]

theorem nodupKeys_mapInsert {β : Type} {m : List (String × β)} (k : String) (v : β)
    (hm : NodupKeys m) : NodupKeys (mapInsert m k v) := by
  induction m with
  | nil => simp [mapInsert, NodupKeys]
  | cons hd tl ih =>
      obtain ⟨k₀, v₀⟩ := hd
      rcases (List.pairwise_cons.mp hm) with ⟨hhd, htl⟩
      by_cases h : k₀ = k
      · simp only [mapInsert, h, if_true]
        refine List.pairwise_cons.mpr ⟨?_, htl⟩
        intro x hx
        have := hhd x hx
        rw [h] at this
        exact this
      · simp only [mapInsert, h, if_false]
        refine List.pairwise_cons.mpr ⟨?_, ih htl⟩
        intro x hx
        rcases mem_mapInsert hx with hx' | hx'
        · rw [hx']
          exact h
        · exact hhd x hx'

theorem nodupKeys_mapErase {β : Type} {m : List (String × β)} (k : String)
    (hm : NodupKeys m) : NodupKeys (mapErase m k) := by
  induction m with
  | nil => simp [mapErase, NodupKeys]
  | cons hd tl ih =>
      obtain ⟨k₀, v₀⟩ := hd
      rcases (List.pairwise_cons.mp hm) with ⟨hhd, htl⟩
      by_cases h : k₀ = k
      · simpa [mapErase, h] using htl
      · simp only [mapErase, h, if_false]
        refine List.pairwise_cons.mpr ⟨?_, ih htl⟩
        intro x hx
        exact hhd x (mem_mapErase hx)

theorem mapFind?_mapErase_self {β : Type} {m : List (String × β)} (k : String)
    (hm : NodupKeys m) : mapFind? (mapErase m k) k = Option.none := by
  induction m with
  | nil => simp [mapErase, mapFind?]
  | cons hd tl ih =>
      rcases (List.pairwise_cons.mp hm) with ⟨hhd, htl⟩
      by_cases h : hd.1 = k
      · rw [mapFind?_eq_none_iff]
        intro x hx
        have hmem : x ∈ tl := by simpa [mapErase, h] using hx
        have := hhd x hmem
        rw [h] at this
        exact fun e => this e.symm
      · simp [mapErase, h, mapFind?, ih htl]

/-- `backtester::OpenPositionInfo` (backtester/include/portfolio.hpp):
entry memory of the currently open position for one instrument; the
quantity is signed (positive long, negative short). -/
structure OpenPositionInfo where
  entry_time : Int
  entry_price : ℚ
  entry_quantity : Int
  entry_commission : ℚ
deriving DecidableEq, Repr

/-- `core::Trade` (core/include/datatypes.hpp): one closed round trip. -/
structure Trade where
  instrument_key : String
  entry_action : SignalAction
  entry_time : Int
  exit_time : Int
  quantity : Int
  entry_price : ℚ
  exit_price : ℚ
  commission : ℚ
  pnl : ℚ
  return_pct : ℚ
deriving DecidableEq, Repr

/-- `backtester::PortfolioState` (backtester/include/portfolio.hpp):
one equity-curve sample. -/
structure PortfolioState where
  timestamp : Int
  cash : ℚ
  positions_value : ℚ
  total_equity : ℚ
deriving DecidableEq, Repr

/-- `backtester::Portfolio` (backtester/include/portfolio.hpp): the
mutable state owned by one backtest run. -/
structure Portfolio where
  initial_capital : ℚ
  cash : ℚ
  positions : List (String × Int)
  open_positions_info : List (String × OpenPositionInfo)
  equity_curve : List PortfolioState
  execution_count : Nat
  trade_log : List Trade
deriving DecidableEq, Repr

/-- `Portfolio::Portfolio(double)` (backtester/src/portfolio.cpp):
cash starts at the initial capital, everything else empty. -/
def Portfolio.init (initial_capital : ℚ) : Portfolio :=
  { initial_capital := initial_capital
    cash := initial_capital
    positions := []
    open_positions_info := []
    equity_curve := []
    execution_count := 0
    trade_log := [] }

/-- `Portfolio::getPositionQuantity` (backtester/src/portfolio.cpp):
the stored quantity, or 0 if the instrument is absent from `positions_`. -/
def getPositionQuantity (p : Portfolio) (instrument_key : String) : Int :=
  (mapFind? p.positions instrument_key).getD 0

/-- The mark-to-market value of the positions map under a price map, as
computed inside `Portfolio::recordTimestampValue`: positions whose price
is missing contribute zero. -/
def positionsValue (positions : List (String × Int)) (current_prices : List (String × ℚ)) : ℚ :=
  positions.foldl (fun acc pair =>
    match mapFind? current_prices pair.1 with
    | Option.some price => acc + (pair.2 : ℚ) * price
    | Option.none => acc) 0

/-- `Portfolio::recordTimestampValue` (backtester/src/portfolio.cpp):
appends an equity sample unless the last sample has the same timestamp. -/
def recordTimestampValue (p : Portfolio) (timestamp : Int)
    (current_prices : List (String × ℚ)) : Portfolio :=
  if (p.equity_curve.getLast?.map PortfolioState.timestamp) ≠ Option.some timestamp then
    let pos_value := positionsValue p.positions current_prices
    { p with equity_curve := p.equity_curve ++
        [{ timestamp := timestamp
           cash := p.cash
           positions_value := pos_value
           total_equity := p.cash + pos_value }] }
  else p

/-- The quantity/cost/flags computed by the `switch(action)` block of
`Portfolio::recordTrade` (backtester/src/portfolio.cpp). `Option.none`
models the early `return` on a side mismatch or a `None` action. -/
structure TradePlan where
  quantity : Int
  position_change : Int
  cost : ℚ
  is_entry : Bool
  is_exit : Bool
deriving DecidableEq, Repr

/-- The `switch(action)` block of `Portfolio::recordTrade`: side checks,
exit-quantity clamping, signed position change and net cash delta. -/
def tradePlan (current_qty : Int) (action : SignalAction) (quantity : Int)
    (execution_price commission : ℚ) : Option TradePlan :=
  match action with
  | SignalAction.enterLong =>
      if current_qty < 0 then Option.none
      else Option.some
        { quantity := quantity
          position_change := quantity
          cost := -((quantity : ℚ) * execution_price) - commission
          is_entry := decide (current_qty = 0)
          is_exit := false }
  | SignalAction.exitLong =>
      if current_qty ≤ 0 then Option.none
      else
        let q := if quantity > current_qty then current_qty else quantity
        Option.some
          { quantity := q
            position_change := -q
            cost := (q : ℚ) * execution_price - commission
            is_entry := false
            is_exit := decide (current_qty + -q = 0) }
  | SignalAction.enterShort =>
      if current_qty > 0 then Option.none
      else Option.some
        { quantity := quantity
          position_change := -quantity
          cost := (quantity : ℚ) * execution_price - commission
          is_entry := decide (current_qty = 0)
          is_exit := false }
  | SignalAction.exitShort =>
      if current_qty ≥ 0 then Option.none
      else
        let q := if quantity > -current_qty then -current_qty else quantity
        Option.some
          { quantity := q
            position_change := q
            cost := -((q : ℚ) * execution_price) - commission
            is_entry := false
            is_exit := decide (current_qty + q = 0) }
  | SignalAction.none => Option.none

/-- The round-trip/entry bookkeeping block of `Portfolio::recordTrade`:
on a closing exit with recorded entry memory, append the round-trip
trade and drop the memory; on an opening entry, record the memory.
`p1` is the portfolio after the cash/position/count update. -/
def tradeBookkeeping (p1 : Portfolio) (timestamp : Int) (instrument_key : String)
    (plan : TradePlan) (execution_price commission : ℚ) : Portfolio :=
  if plan.is_exit then
    match mapFind? p1.open_positions_info instrument_key with
    | Option.some entry_info =>
        let entry_value := (entry_info.entry_quantity : ℚ) * entry_info.entry_price
        let exit_value := ((-plan.position_change : Int) : ℚ) * execution_price
        let total_commission := entry_info.entry_commission + commission
        let entry_action :=
          if entry_info.entry_quantity > 0 then SignalAction.enterLong
          else SignalAction.enterShort
        let pnl :=
          if entry_action = SignalAction.enterLong then
            exit_value - entry_value - total_commission
          else entry_value - exit_value - total_commission
        let trade : Trade :=
          { instrument_key := instrument_key
            entry_action := entry_action
            entry_time := entry_info.entry_time
            exit_time := timestamp
            quantity := entry_info.entry_quantity
            entry_price := entry_info.entry_price
            exit_price := execution_price
            commission := total_commission
            pnl := pnl
            return_pct := if entry_value ≠ 0 then pnl / |entry_value| else 0 }
        { p1 with
          trade_log := p1.trade_log ++ [trade]
          open_positions_info := mapErase p1.open_positions_info instrument_key }
    | Option.none => p1
  else if plan.is_entry then
    { p1 with
      open_positions_info := mapInsert p1.open_positions_info instrument_key
        { entry_time := timestamp
          entry_price := execution_price
          entry_quantity := plan.position_change
          entry_commission := commission } }
  else p1

/-- The accepted-execution tail of `Portfolio::recordTrade`: cash and
position update, the trade-log/entry-memory bookkeeping, and erasure of
the instrument when it goes flat. -/
def applyTradeAccepted (p : Portfolio) (timestamp : Int) (instrument_key : String)
    (plan : TradePlan) (execution_price commission : ℚ) : Portfolio :=
  let p1 : Portfolio :=
    { p with
      cash := p.cash + plan.cost
      positions := mapInsert p.positions instrument_key
        (getPositionQuantity p instrument_key + plan.position_change)
      execution_count := p.execution_count + 1 }
  let p2 := tradeBookkeeping p1 timestamp instrument_key plan execution_price commission
  if getPositionQuantity p2 instrument_key = 0 then
    { p2 with
      positions := mapErase p2.positions instrument_key
      open_positions_info := mapErase p2.open_positions_info instrument_key }
  else p2

/-- `Portfolio::recordTrade` (backtester/src/portfolio.cpp): rejects
non-positive quantities, side mismatches and executions that would drive
cash below zero; otherwise applies the accepted execution. -/
def recordTrade (p : Portfolio) (timestamp : Int) (instrument_key : String)
    (action : SignalAction) (quantity : Int) (execution_price commission : ℚ) : Portfolio :=
  if quantity ≤ 0 then p
  else
    match tradePlan (getPositionQuantity p instrument_key) action quantity
        execution_price commission with
    | Option.none => p
    | Option.some plan =>
        if plan.cost < 0 ∧ p.cash + plan.cost < 0 then p
        else applyTradeAccepted p timestamp instrument_key plan execution_price commission

/-- `strategy_engine::MarketDataSnapshot`. The `indicator_values_prev`
field is the one read by `IndicatorCrossCondition::evaluate`
(strategy_engine/src/indicator_cross_condition.cpp); the struct revision
in strategy_engine/include/interfaces.hpp does not declare it and
`Backtester::runEventLoop` never writes it, so in any snapshot the event
loop builds it is the default-constructed empty map. -/
structure MarketDataSnapshot where
  current_time : Int
  current_candle : Candle
  indicator_values : List (String × ℚ)
  indicator_values_prev : List (String × ℚ)

/-- `strategy_engine::CrossType`
(strategy_engine/include/indicator_cross_condition.hpp). -/
inductive CrossType where
  | crossesAbove
  | crossesBelow
deriving DecidableEq, Repr

/-- `IndicatorCrossCondition::evaluate`
(strategy_engine/src/indicator_cross_condition.cpp): false unless all
four of now/prev values of both indicators are present. -/
def indicatorCrossEvaluate (indicator1_name : String) (cross_type : CrossType)
    (indicator2_name : String) (snapshot : MarketDataSnapshot) : Bool :=
  match mapFind? snapshot.indicator_values indicator1_name,
        mapFind? snapshot.indicator_values indicator2_name,
        mapFind? snapshot.indicator_values_prev indicator1_name,
        mapFind? snapshot.indicator_values_prev indicator2_name with
  | Option.some val1_now, Option.some val2_now,
    Option.some val1_prev, Option.some val2_prev =>
      match cross_type with
      | CrossType.crossesAbove => decide (val1_prev ≤ val2_prev ∧ val1_now > val2_now)
      | CrossType.crossesBelow => decide (val1_prev ≥ val2_prev ∧ val1_now < val2_now)
  | _, _, _, _ => false

/-- An `IRule`: `Rule::evaluate` maps a snapshot to a signal action
(strategy_engine/include/interfaces.hpp). -/
abbrev RuleFn := MarketDataSnapshot → SignalAction

/-- The entry-rule loop of `Strategy::evaluate`
(strategy_engine/src/strategy.cpp): first rule producing `EnterLong` or
`EnterShort` wins. -/
def firstEntryAction : List RuleFn → MarketDataSnapshot → SignalAction
  | [], _ => SignalAction.none
  | rule :: rest, snapshot =>
      let action := rule snapshot
      if action = SignalAction.enterLong ∨ action = SignalAction.enterShort then action
      else firstEntryAction rest snapshot

/-- The exit-rule loop of `Strategy::evaluate`: first exit action
matching the current side wins; mismatched exits are skipped. -/
def firstExitAction (current_position : PositionState) :
    List RuleFn → MarketDataSnapshot → SignalAction
  | [], _ => SignalAction.none
  | rule :: rest, snapshot =>
      let action := rule snapshot
      if (current_position = PositionState.long ∧ action = SignalAction.exitLong) ∨
         (current_position = PositionState.short ∧ action = SignalAction.exitShort) then action
      else firstExitAction current_position rest snapshot

/-- The position-update `switch` at the end of `Strategy::evaluate`. -/
def updatePosition (current_position : PositionState) (action : SignalAction) : PositionState :=
  match action with
  | SignalAction.enterLong => PositionState.long
  | SignalAction.enterShort => PositionState.short
  | SignalAction.exitLong => PositionState.none
  | SignalAction.exitShort => PositionState.none
  | SignalAction.none => current_position

/-- `Strategy::evaluate` (strategy_engine/src/strategy.cpp): gate rules
on the cached position, then update the cached position from the
returned action. Returns (action, new cached position). -/
def strategyEvaluate (current_position : PositionState)
    (entry_rules exit_rules : List RuleFn) (snapshot : MarketDataSnapshot) :
    SignalAction × PositionState :=
  let resulting_action :=
    if current_position = PositionState.none then firstEntryAction entry_rules snapshot
    else firstExitAction current_position exit_rules snapshot
  (resulting_action, updatePosition current_position resulting_action)

/-- `strategy_engine::SizingMethod` (strategy_engine/include/common_types.hpp). -/
inductive SizingMethod where
  | quantity
  | capitalBased
deriving DecidableEq, Repr

/-- The sizing parameters the backtester reads from the strategy
(`getSizingMethod`, `getSizingValue`, `isSizingValuePercentage`). -/
structure SizingConfig where
  sizing_method : SizingMethod
  sizing_value : ℚ
  is_sizing_value_percentage : Bool
deriving DecidableEq, Repr

/-- `static_cast<long long>` of a C++ double: truncation toward zero. -/
def cppTrunc (x : ℚ) : Int := if 0 ≤ x then ⌊x⌋ else -⌊-x⌋

/-- The fixed `commission_per_share = 0.01` of `Backtester::executeSignal`. -/
def commission_per_share : ℚ := 1 / 100

/-- The `1e-9` guard against tiny execution prices in
`Backtester::executeSignal`. -/
def min_execution_price : ℚ := 1 / 1000000000

/-- The entry-quantity computation of `Backtester::executeSignal`
(backtester/src/backtester.cpp): fixed quantity is a truncating cast of
the sizing value; capital-based sizing floors allocated capital over the
execution price, guarded by the `1e-9` threshold. -/
def computeEntryQuantity (sizing : SizingConfig) (initial_capital execution_price : ℚ) : Int :=
  match sizing.sizing_method with
  | SizingMethod.quantity => cppTrunc sizing.sizing_value
  | SizingMethod.capitalBased =>
      let capital_to_allocate :=
        if sizing.is_sizing_value_percentage then
          initial_capital * (sizing.sizing_value / 100)
        else sizing.sizing_value
      if execution_price > min_execution_price then
        ⌊capital_to_allocate / execution_price⌋
      else 0

/-- `Backtester::executeSignal` (backtester/src/backtester.cpp):
translate a signal into a `recordTrade` call, or do nothing when the
signal is ignored (entry while not flat, exit on the wrong side) or the
computed quantity is not positive. -/
def executeSignal (sizing : SizingConfig) (initial_capital : ℚ)
    (primary_instrument_key : String) (p : Portfolio) (timestamp : Int)
    (current_candle : Candle) (signal : SignalAction) : Portfolio :=
  let current_position := getPositionQuantity p primary_instrument_key
  let execution_price := current_candle.close
  match signal with
  | SignalAction.enterLong | SignalAction.enterShort =>
      if current_position ≠ 0 then p
      else
        let quantity_to_trade := computeEntryQuantity sizing initial_capital execution_price
        if quantity_to_trade > 0 then
          recordTrade p timestamp primary_instrument_key signal quantity_to_trade
            execution_price (commission_per_share * (quantity_to_trade : ℚ))
        else p
  | SignalAction.exitLong =>
      if current_position > 0 then
        recordTrade p timestamp primary_instrument_key signal current_position
          execution_price (commission_per_share * (current_position : ℚ))
      else p
  | SignalAction.exitShort =>
      if current_position < 0 then
        recordTrade p timestamp primary_instrument_key signal (-current_position)
          execution_price (commission_per_share * ((-current_position : Int) : ℚ))
      else p
  | SignalAction.none => p

/-- The maximum-lookback scan at the top of `Backtester::runEventLoop`:
indicators are `(name, lookback)` pairs. -/
def maxLookback (indicators : List (String × Nat)) : Nat :=
  indicators.foldl (fun m pair => max m pair.2) 0

/-- The snapshot construction inside the event loop
(backtester/src/backtester.cpp, loop body of `runEventLoop`): for each
indicator, publish `results[i - lookback]` when that index is in range.
`indicator_values_prev` is never written. -/
def buildSnapshot (indicators : List (String × Nat))
    (indicator_results : List (String × List ℚ)) (current_candle : Candle) (i : Nat) :
    MarketDataSnapshot :=
  { current_time := current_candle.timestamp
    current_candle := current_candle
    indicator_values := indicators.foldl (fun acc pair =>
      let results := (mapFind? indicator_results pair.1).getD []
      let result_index : Int := (i : Int) - (pair.2 : Int)
      if 0 ≤ result_index ∧ result_index < (results.length : Int) then
        mapInsert acc pair.1 (results.getD result_index.toNat 0)
      else acc) []
    indicator_values_prev := [] }

/-- The configuration a run hands to the event loop: the strategy's rule
lists and sizing, the primary instrument, and the calculated indicators. -/
structure BacktestConfig where
  primary_instrument_key : String
  initial_capital : ℚ
  sizing : SizingConfig
  entry_rules : List RuleFn
  exit_rules : List RuleFn
  indicators : List (String × Nat)
  indicator_results : List (String × List ℚ)

/-- The per-bar mutable state of the event loop: the strategy's cached
position and the portfolio. -/
structure LoopState where
  current_position : PositionState
  portfolio : Portfolio

/-- One iteration of the event loop (backtester/src/backtester.cpp):
build the snapshot, evaluate the strategy, execute a non-`None` signal,
then record the equity sample at the current close. -/
def processBar (cfg : BacktestConfig) (st : LoopState) (i : Nat)
    (current_candle : Candle) : LoopState :=
  let snapshot := buildSnapshot cfg.indicators cfg.indicator_results current_candle i
  let eval := strategyEvaluate st.current_position cfg.entry_rules cfg.exit_rules snapshot
  let portfolio' :=
    if eval.1 ≠ SignalAction.none then
      executeSignal cfg.sizing cfg.initial_capital cfg.primary_instrument_key
        st.portfolio snapshot.current_time current_candle eval.1
    else st.portfolio
  { current_position := eval.2
    portfolio := recordTimestampValue portfolio' snapshot.current_time
      [(cfg.primary_instrument_key, current_candle.close)] }

/-- The bar indices the `for` loop of `runEventLoop` visits:
`max_lookback, max_lookback+1, ..., candle_count-1`. -/
def visitedBarIndices (candle_count max_lookback : Nat) : List Nat :=
  List.range' max_lookback (candle_count - max_lookback)

/-- `Backtester::runEventLoop` (backtester/src/backtester.cpp): returns
unchanged state when the data does not cover the maximum lookback,
otherwise folds `processBar` over bars `max_lookback .. n-1`. -/
def runEventLoop (cfg : BacktestConfig) (primary_data : List Candle)
    (st0 : LoopState) : LoopState :=
  let max_lookback := maxLookback cfg.indicators
  if primary_data.length ≤ max_lookback then st0
  else
    (List.enumFrom max_lookback (primary_data.drop max_lookback)).foldl
      (fun st pair => processBar cfg st pair.1 pair.2) st0

/-- The data-sufficiency check of `Backtester::createAndCalculateIndicators`:
it returns false (failing the run before the event loop) as soon as some
required indicator has `primary_data_.size() <= lookback`. -/
def indicatorsDataCheck (candle_count : Nat) (indicators : List (String × Nat)) : Bool :=
  indicators.all (fun pair => candle_count > pair.2)

/-- The pre-loop checks of `Backtester::run`: `loadData` fails on an
empty candle series, and `createAndCalculateIndicators` fails when any
indicator lacks data; either failure ends the run before the event loop. -/
def runPrechecksPass (candle_count : Nat) (indicators : List (String × Nat)) : Bool :=
  decide (candle_count ≠ 0) && indicatorsDataCheck candle_count indicators

/-- The spec's classifier of a signed quantity into a position state:
flat at 0, long when positive, short when negative. -/
def positionStateOfQuantity (q : Int) : PositionState :=
  if q = 0 then PositionState.none
  else if 0 < q then PositionState.long
  else PositionState.short

theorem mapFind?_eq_some_mem {β : Type} {m : List (String × β)} {k : String} {v : β}
    (h : mapFind? m k = Option.some v) : (k, v) ∈ m := by
  induction m with
  | nil => simp [mapFind?] at h
  | cons hd tl ih =>
      obtain ⟨k₀, v₀⟩ := hd
      by_cases hk : k₀ = k
      · subst hk
        simp only [mapFind?, if_pos rfl, Option.some.injEq] at h
        cases h
        exact List.mem_cons_self _ _
      · simp only [mapFind?, if_neg hk] at h
        exact List.mem_cons_of_mem _ (ih h)

theorem tradeBookkeeping_cash (p1 : Portfolio) (t : Int) (key : String)
    (plan : TradePlan) (price comm : ℚ) :
    (tradeBookkeeping p1 t key plan price comm).cash = p1.cash := by
  unfold tradeBookkeeping
  split
  · split <;> rfl
  · split <;> rfl

theorem tradeBookkeeping_positions (p1 : Portfolio) (t : Int) (key : String)
    (plan : TradePlan) (price comm : ℚ) :
    (tradeBookkeeping p1 t key plan price comm).positions = p1.positions := by
  unfold tradeBookkeeping
  split
  · split <;> rfl
  · split <;> rfl

theorem tradeBookkeeping_equity_curve (p1 : Portfolio) (t : Int) (key : String)
    (plan : TradePlan) (price comm : ℚ) :
    (tradeBookkeeping p1 t key plan price comm).equity_curve = p1.equity_curve := by
  unfold tradeBookkeeping
  split
  · split <;> rfl
  · split <;> rfl

theorem applyTradeAccepted_cash (p : Portfolio) (t : Int) (key : String)
    (plan : TradePlan) (price comm : ℚ) :
    (applyTradeAccepted p t key plan price comm).cash = p.cash + plan.cost := by
  simp only [applyTradeAccepted]
  split <;> simp [tradeBookkeeping_cash]

theorem applyTradeAccepted_equity_curve (p : Portfolio) (t : Int) (key : String)
    (plan : TradePlan) (price comm : ℚ) :
    (applyTradeAccepted p t key plan price comm).equity_curve = p.equity_curve := by
  simp only [applyTradeAccepted]
  split <;> simp [tradeBookkeeping_equity_curve]

theorem recordTrade_equity_curve (p : Portfolio) (t : Int) (key : String)
    (action : SignalAction) (qty : Int) (price comm : ℚ) :
    (recordTrade p t key action qty price comm).equity_curve = p.equity_curve := by
  unfold recordTrade
  split
  · rfl
  · split
    · rfl
    · split
      · rfl
      · exact applyTradeAccepted_equity_curve ..

theorem executeSignal_equity_curve (sizing : SizingConfig) (cap : ℚ) (key : String)
    (p : Portfolio) (t : Int) (c : Candle) (signal : SignalAction) :
    (executeSignal sizing cap key p t c signal).equity_curve = p.equity_curve := by
  cases signal
  case none => rfl
  case enterLong =>
    simp only [executeSignal]
    split
    · rfl
    · split
      · exact recordTrade_equity_curve ..
      · rfl
  case enterShort =>
    simp only [executeSignal]
    split
    · rfl
    · split
      · exact recordTrade_equity_curve ..
      · rfl
  case exitLong =>
    simp only [executeSignal]
    split
    · exact recordTrade_equity_curve ..
    · rfl
  case exitShort =>
    simp only [executeSignal]
    split
    · exact recordTrade_equity_curve ..
    · rfl

theorem recordTimestampValue_positions (p : Portfolio) (t : Int)
    (prices : List (String × ℚ)) :
    (recordTimestampValue p t prices).positions = p.positions := by
  unfold recordTimestampValue
  split <;> rfl

/-- C1. The claim states that the event loop's snapshot at bar `i` holds
`results[i - 1 - L]` in `indicator_values_prev` exactly when `i - 1 ≥ L`.
The code never writes `indicator_values_prev`: the loop body populates
only `indicator_values`, so the previous-bar map of every snapshot it
hands to the strategy is empty — in particular at bar `i = 3` for an
indicator of lookback 2, where the claim requires the value to be
present. -/
theorem buildSnapshot_prev_always_empty :
    (∀ (indicators : List (String × Nat)) (indicator_results : List (String × List ℚ))
        (c : Candle) (i : Nat),
      (buildSnapshot indicators indicator_results c i).indicator_values_prev = []) ∧
    (mapFind? (buildSnapshot [("SMA(3)", 2)] [("SMA(3)", [(10 : ℚ), 11])]
        { timestamp := 3, open_ := 1, high := 1, low := 1, close := 1, volume := 0 }
        3).indicator_values_prev "SMA(3)" = Option.none ∧
      2 ≤ 3 - 1) :=
  ⟨fun _ _ _ _ => rfl, rfl, by omega⟩

/-- C2. The claim (and §8 of the spec) states that a closed short round
trip records `pnl = (entry_price - exit_price)·qty - total_commission`.
The code stores the signed entry quantity (negative for shorts), so
`entry_value` and `exit_value` are both negated and
`pnl = entry_value - exit_value - total_commission` comes out as
`(exit_price - entry_price)·qty - total_commission`: entering short 10 at
20 and covering at 15 with 0.1 commission per leg records `-50.2`, not
the `+49.8` the claim requires. -/
theorem recordTrade_short_pnl_sign :
    ((recordTrade (recordTrade (Portfolio.init 1000) 0 "NSE" SignalAction.enterShort 10 20 (1/10))
        1 "NSE" SignalAction.exitShort 10 15 (1/10)).trade_log.map
      (fun tr => (tr.entry_action, tr.pnl))) = [(SignalAction.enterShort, -(251/5))] ∧
    ((20 - 15) * 10 - (1/10 + 1/10) : ℚ) = 249/5 ∧
    (-(251/5) : ℚ) ≠ 249/5 := by
  refine ⟨?_, by norm_num, by norm_num⟩
  norm_num [recordTrade, tradePlan, applyTradeAccepted, tradeBookkeeping,
    getPositionQuantity, mapFind?, mapInsert, mapErase, Portfolio.init]
  decide

/-- C7. `IndicatorCrossCondition::evaluate` is true for `CrossesAbove`
exactly when all four now/prev values are present and
`v1_prev ≤ v2_prev ∧ v1_now > v2_now` (dually for `CrossesBelow` with
`v1_prev ≥ v2_prev ∧ v1_now < v2_now`); whenever any of the four values
is absent from the snapshot it evaluates to `false`. -/
theorem indicatorCrossEvaluate_spec (indicator1_name indicator2_name : String)
    (s : MarketDataSnapshot) :
    (indicatorCrossEvaluate indicator1_name CrossType.crossesAbove indicator2_name s = true ↔
      ∃ v1_now v2_now v1_prev v2_prev,
        mapFind? s.indicator_values indicator1_name = Option.some v1_now ∧
        mapFind? s.indicator_values indicator2_name = Option.some v2_now ∧
        mapFind? s.indicator_values_prev indicator1_name = Option.some v1_prev ∧
        mapFind? s.indicator_values_prev indicator2_name = Option.some v2_prev ∧
        v1_prev ≤ v2_prev ∧ v1_now > v2_now) ∧
    (indicatorCrossEvaluate indicator1_name CrossType.crossesBelow indicator2_name s = true ↔
      ∃ v1_now v2_now v1_prev v2_prev,
        mapFind? s.indicator_values indicator1_name = Option.some v1_now ∧
        mapFind? s.indicator_values indicator2_name = Option.some v2_now ∧
        mapFind? s.indicator_values_prev indicator1_name = Option.some v1_prev ∧
        mapFind? s.indicator_values_prev indicator2_name = Option.some v2_prev ∧
        v1_prev ≥ v2_prev ∧ v1_now < v2_now) ∧
    ((mapFind? s.indicator_values indicator1_name = Option.none ∨
      mapFind? s.indicator_values indicator2_name = Option.none ∨
      mapFind? s.indicator_values_prev indicator1_name = Option.none ∨
      mapFind? s.indicator_values_prev indicator2_name = Option.none) →
      ∀ cross_type,
        indicatorCrossEvaluate indicator1_name cross_type indicator2_name s = false) := by
  cases h1 : mapFind? s.indicator_values indicator1_name <;>
    cases h2 : mapFind? s.indicator_values indicator2_name <;>
      cases h3 : mapFind? s.indicator_values_prev indicator1_name <;>
        cases h4 : mapFind? s.indicator_values_prev indicator2_name <;>
          refine ⟨?_, ?_, ?_⟩ <;>
            simp [indicatorCrossEvaluate, h1, h2, h3, h4]

/-- C7 witness: at the first eligible bar the previous-value map is empty,
so a cross condition with both current values present still evaluates to
`false`. -/
theorem indicatorCrossEvaluate_spec_witness :
    indicatorCrossEvaluate "SMA(3)" CrossType.crossesAbove "SMA(5)"
      { current_time := 0
        current_candle := { timestamp := 0, open_ := 1, high := 1, low := 1, close := 1, volume := 0 }
        indicator_values := [("SMA(3)", (2 : ℚ)), ("SMA(5)", 1)]
        indicator_values_prev := [] } = false := by
  exact (indicatorCrossEvaluate_spec "SMA(3)" "SMA(5)"
      { current_time := 0
        current_candle := { timestamp := 0, open_ := 1, high := 1, low := 1, close := 1, volume := 0 }
        indicator_values := [("SMA(3)", (2 : ℚ)), ("SMA(5)", 1)]
        indicator_values_prev := [] }).2.2
    (Or.inr (Or.inr (Or.inl rfl))) CrossType.crossesAbove

theorem foldl_max_attained (l : List (String × Nat)) (a : Nat) :
    l.foldl (fun m pair => max m pair.2) a = a ∨
    ∃ p ∈ l, p.2 = l.foldl (fun m pair => max m pair.2) a := by
  induction l generalizing a with
  | nil => exact Or.inl rfl
  | cons hd tl ih =>
      rcases ih (max a hd.2) with h | ⟨p, hp, hp2⟩
      · rcases Nat.le_total hd.2 a with hle | hle
        · left
          rw [List.foldl_cons, h, Nat.max_eq_left hle]
        · right
          exact ⟨hd, List.mem_cons_self _ _, by rw [List.foldl_cons, h, Nat.max_eq_right hle]⟩
      · right
        exact ⟨p, List.mem_cons_of_mem _ hp, by rw [List.foldl_cons]; exact hp2⟩

theorem maxLookback_attained (indicators : List (String × Nat)) :
    maxLookback indicators = 0 ∨ ∃ p ∈ indicators, p.2 = maxLookback indicators :=
  foldl_max_attained indicators 0

/-- C6. The event loop visits exactly the bar indices
`max_lookback .. candles.length - 1`, in strictly increasing order: the
first visited index is `max_lookback`, no earlier bar is ever visited
(hence never passed to a rule), the run's pre-loop checks fail whenever
`candles.length ≤ max_lookback`, and a series of exactly
`max_lookback + 1` candles yields exactly one visited bar. The last
conjunct ties the fold in `runEventLoop` to `visitedBarIndices`. -/
theorem runEventLoop_bar_bounds (n L : Nat) (indicators : List (String × Nat)) :
    (L < n → (visitedBarIndices n L).head? = Option.some L) ∧
    List.Chain' (· < ·) (visitedBarIndices n L) ∧
    (∀ i, i ∈ visitedBarIndices n L ↔ L ≤ i ∧ i < n) ∧
    (L < n → (visitedBarIndices n L).getLast? = Option.some (n - 1)) ∧
    (n ≤ maxLookback indicators → runPrechecksPass n indicators = false) ∧
    (visitedBarIndices (L + 1) L = [L]) ∧
    (∀ (candles : List Candle),
      (List.enumFrom L (candles.drop L)).map Prod.fst =
        visitedBarIndices candles.length L) := by
  refine ⟨?_, ?_, ?_, ?_, ?_, ?_, ?_⟩
  · intro h
    rw [visitedBarIndices, List.head?_range', if_neg (by omega)]
  · exact (List.pairwise_lt_range' L (n - L)).chain'
  · intro i
    rw [visitedBarIndices, List.mem_range'_1]
    omega
  · intro h
    rw [visitedBarIndices, List.getLast?_range', if_neg (by omega)]
    congr 1
    omega
  · intro h
    rcases maxLookback_attained indicators with h0 | ⟨p, hp, hp2⟩
    · have hn : n = 0 := by omega
      subst hn
      simp [runPrechecksPass]
    · simp only [runPrechecksPass, indicatorsDataCheck, Bool.and_eq_false_iff]
      right
      rw [List.all_eq_false]
      exact ⟨p, hp, by simp; omega⟩
  · rw [visitedBarIndices, Nat.add_sub_cancel_left]
    rfl
  · intro candles
    rw [List.enumFrom_map_fst, List.length_drop, visitedBarIndices]

/-- C6 witness: with three candles and maximum lookback 2, the first
visited bar is index 2; with only two candles the pre-loop checks fail
for an indicator of lookback 2. -/
theorem runEventLoop_bar_bounds_witness :
    (visitedBarIndices 3 2).head? = Option.some 2 ∧
    runPrechecksPass 2 [("SMA(3)", 2)] = false :=
  ⟨(runEventLoop_bar_bounds 3 2 []).1 (by omega),
   (runEventLoop_bar_bounds 2 2 [("SMA(3)", 2)]).2.2.2.2.1 (by decide)⟩

theorem firstEntryAction_eq_find? (rules : List RuleFn) (s : MarketDataSnapshot) :
    firstEntryAction rules s =
      ((rules.map (fun r => r s)).find?
          (fun a => decide (a = SignalAction.enterLong ∨ a = SignalAction.enterShort))).getD
        SignalAction.none := by
  induction rules with
  | nil => rfl
  | cons r rest ih =>
      by_cases h : r s = SignalAction.enterLong ∨ r s = SignalAction.enterShort
      · simp [firstEntryAction, h, List.find?]
      · simp [firstEntryAction, h, List.find?, ih]

theorem firstExitAction_eq_find? (pos : PositionState) (rules : List RuleFn)
    (s : MarketDataSnapshot) :
    firstExitAction pos rules s =
      ((rules.map (fun r => r s)).find?
          (fun a => decide ((pos = PositionState.long ∧ a = SignalAction.exitLong) ∨
            (pos = PositionState.short ∧ a = SignalAction.exitShort)))).getD
        SignalAction.none := by
  induction rules with
  | nil => rfl
  | cons r rest ih =>
      by_cases h : (pos = PositionState.long ∧ r s = SignalAction.exitLong) ∨
          (pos = PositionState.short ∧ r s = SignalAction.exitShort)
      · simp [firstExitAction, h, List.find?]
      · simp [firstExitAction, h, List.find?, ih]

/-- C4. `Strategy::evaluate` follows the position-gated protocol: when
flat, the result is the first entry action (`EnterLong`/`EnterShort`)
produced by the entry rules in order and the exit rules are never
consulted; when long or short, the result is the first side-matching
exit action produced by the exit rules in order (mismatched exits are
skipped) and the entry rules are never consulted; when nothing matches
the result is `None`; and the cached position is updated synchronously
from the returned action (`EnterLong → Long`, `EnterShort → Short`,
exits → flat, `None` → unchanged). -/
theorem strategyEvaluate_protocol :
    (∀ (entry_rules exit_rules exit_rules' : List RuleFn) (s : MarketDataSnapshot),
      strategyEvaluate PositionState.none entry_rules exit_rules s =
        strategyEvaluate PositionState.none entry_rules exit_rules' s) ∧
    (∀ (entry_rules exit_rules : List RuleFn) (s : MarketDataSnapshot),
      (strategyEvaluate PositionState.none entry_rules exit_rules s).1 =
        ((entry_rules.map (fun r => r s)).find?
            (fun a => decide (a = SignalAction.enterLong ∨ a = SignalAction.enterShort))).getD
          SignalAction.none) ∧
    (∀ (pos : PositionState) (entry_rules entry_rules' exit_rules : List RuleFn)
        (s : MarketDataSnapshot), pos ≠ PositionState.none →
      strategyEvaluate pos entry_rules exit_rules s =
        strategyEvaluate pos entry_rules' exit_rules s) ∧
    (∀ (pos : PositionState) (entry_rules exit_rules : List RuleFn)
        (s : MarketDataSnapshot), pos ≠ PositionState.none →
      (strategyEvaluate pos entry_rules exit_rules s).1 =
        ((exit_rules.map (fun r => r s)).find?
            (fun a => decide ((pos = PositionState.long ∧ a = SignalAction.exitLong) ∨
              (pos = PositionState.short ∧ a = SignalAction.exitShort)))).getD
          SignalAction.none) ∧
    (∀ (pos : PositionState) (entry_rules exit_rules : List RuleFn) (s : MarketDataSnapshot),
      (strategyEvaluate pos entry_rules exit_rules s).2 =
        updatePosition pos (strategyEvaluate pos entry_rules exit_rules s).1) ∧
    (∀ pos, updatePosition pos SignalAction.enterLong = PositionState.long ∧
      updatePosition pos SignalAction.enterShort = PositionState.short ∧
      updatePosition pos SignalAction.exitLong = PositionState.none ∧
      updatePosition pos SignalAction.exitShort = PositionState.none ∧
      updatePosition pos SignalAction.none = pos) := by
  refine ⟨fun _ _ _ _ => rfl, fun e x s => firstEntryAction_eq_find? e s, ?_, ?_, ?_, ?_⟩
  · intro pos e e' x s h
    cases pos
    · exact absurd rfl h
    · rfl
    · rfl
  · intro pos e x s h
    cases pos
    · exact absurd rfl h
    · exact firstExitAction_eq_find? PositionState.long x s
    · exact firstExitAction_eq_find? PositionState.short x s
  · intro pos e x s
    rfl
  · intro pos
    exact ⟨rfl, rfl, rfl, rfl, rfl⟩

/-- C4 witness: while long, a mismatched `ExitShort` rule is skipped and
the next rule's `ExitLong` is returned. -/
theorem strategyEvaluate_protocol_witness :
    (strategyEvaluate PositionState.long []
      [fun _ => SignalAction.exitShort, fun _ => SignalAction.exitLong]
      { current_time := 0
        current_candle := { timestamp := 0, open_ := 1, high := 1, low := 1, close := 1, volume := 0 }
        indicator_values := []
        indicator_values_prev := [] }).1 = SignalAction.exitLong := by
  rw [strategyEvaluate_protocol.2.2.2.1 PositionState.long [] _ _ (by decide)]
  rfl

/-- C5. An execution whose net cash delta would drive cash below zero is
rejected atomically: the whole portfolio (cash, positions, open-position
memory, trade log, execution count) is returned unchanged; the equity
sample for the bar's timestamp is still appended by the loop's subsequent
`recordTimestampValue` call; and cash stays non-negative across every
`recordTrade` call, accepted or rejected. -/
theorem recordTrade_cash_guard :
    (∀ (p : Portfolio) (t : Int) (key : String) (action : SignalAction) (qty : Int)
        (price comm : ℚ) (plan : TradePlan),
      tradePlan (getPositionQuantity p key) action qty price comm = Option.some plan →
      plan.cost < 0 → p.cash + plan.cost < 0 →
      recordTrade p t key action qty price comm = p) ∧
    (∀ (p : Portfolio) (t : Int) (key : String) (action : SignalAction) (qty : Int)
        (price comm : ℚ) (plan : TradePlan) (ts : Int) (prices : List (String × ℚ)),
      tradePlan (getPositionQuantity p key) action qty price comm = Option.some plan →
      plan.cost < 0 → p.cash + plan.cost < 0 →
      (p.equity_curve.getLast?.map PortfolioState.timestamp) ≠ Option.some ts →
      (recordTimestampValue (recordTrade p t key action qty price comm) ts prices).equity_curve =
        p.equity_curve ++
          [{ timestamp := ts
             cash := p.cash
             positions_value := positionsValue p.positions prices
             total_equity := p.cash + positionsValue p.positions prices }]) ∧
    (∀ (p : Portfolio) (t : Int) (key : String) (action : SignalAction) (qty : Int)
        (price comm : ℚ), 0 ≤ p.cash →
      0 ≤ (recordTrade p t key action qty price comm).cash) := by
  have hrej : ∀ (p : Portfolio) (t : Int) (key : String) (action : SignalAction) (qty : Int)
      (price comm : ℚ) (plan : TradePlan),
      tradePlan (getPositionQuantity p key) action qty price comm = Option.some plan →
      plan.cost < 0 → p.cash + plan.cost < 0 →
      recordTrade p t key action qty price comm = p := by
    intro p t key action qty price comm plan hplan hc hcc
    unfold recordTrade
    split
    · rfl
    · simp only [hplan]
      rw [if_pos ⟨hc, hcc⟩]
  refine ⟨hrej, ?_, ?_⟩
  · intro p t key action qty price comm plan ts prices hplan hc hcc hts
    rw [hrej p t key action qty price comm plan hplan hc hcc]
    rw [recordTimestampValue, if_pos hts]
  · intro p t key action qty price comm hcash
    unfold recordTrade
    split
    · exact hcash
    · split
      · exact hcash
      · rename_i plan2 heq2
        split
        · exact hcash
        · rename_i hrejn
          rw [applyTradeAccepted_cash]
          rcases le_or_lt 0 plan2.cost with h0 | h0
          · linarith
          · by_contra hneg
            exact hrejn ⟨h0, by linarith⟩

/-- C5 witness: with capital 100, buying 10 shares at 20 (commission 0.1)
needs 200.1 and is rejected: the portfolio is unchanged. -/
theorem recordTrade_cash_guard_witness :
    recordTrade (Portfolio.init 100) 0 "NSE" SignalAction.enterLong 10 20 (1/10) =
      Portfolio.init 100 := by
  refine recordTrade_cash_guard.1 (Portfolio.init 100) 0 "NSE" SignalAction.enterLong
    10 20 (1/10)
    { quantity := 10, position_change := 10, cost := -(2001/10), is_entry := true, is_exit := false }
    ?_ (by norm_num) (by norm_num [Portfolio.init])
  norm_num [tradePlan, getPositionQuantity, Portfolio.init, mapFind?]

theorem getPositionQuantity_tradeBookkeeping (p1 : Portfolio) (t : Int) (key : String)
    (plan : TradePlan) (price comm : ℚ) (k : String) :
    getPositionQuantity (tradeBookkeeping p1 t key plan price comm) k =
      getPositionQuantity p1 k := by
  unfold getPositionQuantity
  rw [tradeBookkeeping_positions]

theorem tradeBookkeeping_open (p1 : Portfolio) (t : Int) (key : String)
    (plan : TradePlan) (price comm : ℚ) :
    (tradeBookkeeping p1 t key plan price comm).open_positions_info =
      if plan.is_exit then
        (match mapFind? p1.open_positions_info key with
          | Option.some _ => mapErase p1.open_positions_info key
          | Option.none => p1.open_positions_info)
      else if plan.is_entry then
        mapInsert p1.open_positions_info key
          { entry_time := t
            entry_price := price
            entry_quantity := plan.position_change
            entry_commission := comm }
      else p1.open_positions_info := by
  unfold tradeBookkeeping
  cases hex : plan.is_exit
  · simp only [Bool.false_eq_true, if_false]
    cases hent : plan.is_entry <;> simp
  · simp only [if_true]
    cases hfind : mapFind? p1.open_positions_info key <;> simp [hfind]

theorem tradeBookkeeping_open_congr (p1 q1 : Portfolio) (t : Int) (key : String)
    (plan : TradePlan) (price comm : ℚ)
    (h : p1.open_positions_info = q1.open_positions_info) :
    (tradeBookkeeping p1 t key plan price comm).open_positions_info =
      (tradeBookkeeping q1 t key plan price comm).open_positions_info := by
  rw [tradeBookkeeping_open, tradeBookkeeping_open, h]

theorem nodupKeys_tradeBookkeeping_open (p1 : Portfolio) (t : Int) (key : String)
    (plan : TradePlan) (price comm : ℚ) (h : NodupKeys p1.open_positions_info) :
    NodupKeys (tradeBookkeeping p1 t key plan price comm).open_positions_info := by
  rw [tradeBookkeeping_open]
  split
  · split
    · exact nodupKeys_mapErase _ h
    · exact h
  · split
    · exact nodupKeys_mapInsert _ _ h
    · exact h

theorem mem_tradeBookkeeping_open (p1 : Portfolio) (t : Int) (key : String)
    (plan : TradePlan) (price comm : ℚ) {x : String × OpenPositionInfo}
    (hx : x ∈ (tradeBookkeeping p1 t key plan price comm).open_positions_info) :
    x = (key, OpenPositionInfo.mk t price plan.position_change comm) ∨
      x ∈ p1.open_positions_info := by
  rw [tradeBookkeeping_open] at hx
  revert hx
  split
  · split
    · intro hx
      exact Or.inr (mem_mapErase hx)
    · exact fun hx => Or.inr hx
  · split
    · intro hx
      exact mem_mapInsert hx
    · exact fun hx => Or.inr hx

theorem applyTradeAccepted_positions (p : Portfolio) (t : Int) (key : String)
    (plan : TradePlan) (price comm : ℚ) :
    (applyTradeAccepted p t key plan price comm).positions =
      if getPositionQuantity p key + plan.position_change = 0 then
        mapErase p.positions key
      else mapInsert p.positions key (getPositionQuantity p key + plan.position_change) := by
  simp only [applyTradeAccepted, getPositionQuantity_tradeBookkeeping]
  simp only [getPositionQuantity, mapFind?_mapInsert_self, Option.getD_some]
  split
  · simp only [tradeBookkeeping_positions, mapErase_mapInsert]
  · simp only [tradeBookkeeping_positions]

theorem applyTradeAccepted_open (p : Portfolio) (t : Int) (key : String)
    (plan : TradePlan) (price comm : ℚ) :
    (applyTradeAccepted p t key plan price comm).open_positions_info =
      if getPositionQuantity p key + plan.position_change = 0 then
        mapErase (tradeBookkeeping p t key plan price comm).open_positions_info key
      else (tradeBookkeeping p t key plan price comm).open_positions_info := by
  simp only [applyTradeAccepted, getPositionQuantity_tradeBookkeeping]
  simp only [getPositionQuantity, mapFind?_mapInsert_self, Option.getD_some]
  split <;> simp only [tradeBookkeeping_open]

/-- The key well-formedness facts `std::map` guarantees for the
portfolio's two maps, plus the facts the claim asserts: no instrument is
mapped to quantity 0, and open-position memory exists only for
instruments present in the positions map. -/
def portfolioInv (p : Portfolio) : Prop :=
  NodupKeys p.positions ∧ NodupKeys p.open_positions_info ∧
  (∀ kv ∈ p.positions, kv.2 ≠ 0) ∧
  (∀ kv ∈ p.open_positions_info, mapFind? p.positions kv.1 ≠ Option.none)

theorem positionsValue_insert_absent_aux (positions : List (String × Int))
    (prices : List (String × ℚ)) (k : String) (x : ℚ)
    (h : ∀ kv ∈ positions, kv.1 ≠ k) (acc : ℚ) :
    positions.foldl (fun acc pair =>
      match mapFind? (mapInsert prices k x) pair.1 with
      | Option.some price => acc + (pair.2 : ℚ) * price
      | Option.none => acc) acc =
    positions.foldl (fun acc pair =>
      match mapFind? prices pair.1 with
      | Option.some price => acc + (pair.2 : ℚ) * price
      | Option.none => acc) acc := by
  induction positions generalizing acc with
  | nil => rfl
  | cons hd tl ih =>
      have hne : hd.1 ≠ k := h hd (List.mem_cons_self _ _)
      rw [List.foldl_cons, List.foldl_cons,
        mapFind?_mapInsert_ne prices k hd.1 x hne]
      exact ih (fun kv hkv => h kv (List.mem_cons_of_mem _ hkv)) _

/-- C10. After every `recordTrade` call the positions map holds no
instrument with quantity 0 (an instrument going flat is erased together
with its open-position memory): the well-formedness invariant holds for a
fresh portfolio and is preserved by `recordTrade`; under it,
`getPositionQuantity` returns 0 exactly for instruments absent from the
map, a flat instrument has no open-position memory, and an instrument
absent from the positions map contributes nothing to an equity sample's
positions value (its price is irrelevant). -/
theorem positions_map_no_zero :
    (∀ capital : ℚ, portfolioInv (Portfolio.init capital)) ∧
    (∀ (p : Portfolio) (t : Int) (key : String) (action : SignalAction) (qty : Int)
        (price comm : ℚ), portfolioInv p →
      portfolioInv (recordTrade p t key action qty price comm)) ∧
    (∀ (p : Portfolio) (k : String), portfolioInv p →
      (getPositionQuantity p k = 0 ↔ mapFind? p.positions k = Option.none)) ∧
    (∀ (p : Portfolio) (k : String), portfolioInv p → getPositionQuantity p k = 0 →
      mapFind? p.open_positions_info k = Option.none) ∧
    (∀ (positions : List (String × Int)) (prices : List (String × ℚ)) (k : String) (x : ℚ),
      mapFind? positions k = Option.none →
      positionsValue positions (mapInsert prices k x) = positionsValue positions prices) := by
  have hiff : ∀ (p : Portfolio) (k : String), portfolioInv p →
      (getPositionQuantity p k = 0 ↔ mapFind? p.positions k = Option.none) := by
    intro p k ⟨hnp, hno, hz, hsub⟩
    constructor
    · intro h0
      cases hf : mapFind? p.positions k with
      | none => rfl
      | some v =>
          rw [getPositionQuantity, hf, Option.getD_some] at h0
          exact absurd h0 (hz (k, v) (mapFind?_eq_some_mem hf))
    · intro hf
      rw [getPositionQuantity, hf]
      rfl
  refine ⟨?_, ?_, hiff, ?_, ?_⟩
  · intro capital
    exact ⟨List.Pairwise.nil, List.Pairwise.nil, by simp [Portfolio.init], by simp [Portfolio.init]⟩
  · intro p t key action qty price comm hinv
    unfold recordTrade
    split
    · exact hinv
    · split
      · exact hinv
      · rename_i plan2 heq2
        split
        · exact hinv
        · obtain ⟨hnp, hno, hz, hsub⟩ := hinv
          refine ⟨?_, ?_, ?_, ?_⟩
          · rw [applyTradeAccepted_positions]
            split
            · exact nodupKeys_mapErase _ hnp
            · exact nodupKeys_mapInsert _ _ hnp
          · rw [applyTradeAccepted_open]
            split
            · exact nodupKeys_mapErase _ (nodupKeys_tradeBookkeeping_open _ _ _ _ _ _ hno)
            · exact nodupKeys_tradeBookkeeping_open _ _ _ _ _ _ hno
          · rw [applyTradeAccepted_positions]
            split
            · intro kv hkv
              exact hz kv (mem_mapErase hkv)
            · rename_i hvz
              intro kv hkv
              rcases mem_mapInsert hkv with he | hm
              · rw [he]
                exact hvz
              · exact hz kv hm
          · intro kv hkv
            rw [applyTradeAccepted_open] at hkv
            rw [applyTradeAccepted_positions]
            by_cases hvz : getPositionQuantity p key + plan2.position_change = 0
            · rw [if_pos hvz] at hkv ⊢
              have htb : NodupKeys (tradeBookkeeping p t key plan2 price comm).open_positions_info :=
                nodupKeys_tradeBookkeeping_open _ _ _ _ _ _ hno
              have hkne : kv.1 ≠ key :=
                (mapFind?_eq_none_iff _ key).mp (mapFind?_mapErase_self key htb) kv hkv
              rw [mapFind?_mapErase_ne _ _ _ hkne]
              rcases mem_tradeBookkeeping_open _ _ _ _ _ _ (mem_mapErase hkv) with he | hm
              · exact absurd (by rw [he]) hkne
              · exact hsub kv hm
            · rw [if_neg hvz] at hkv ⊢
              by_cases hk : kv.1 = key
              · rw [hk, mapFind?_mapInsert_self]
                simp
              · rw [mapFind?_mapInsert_ne _ _ _ _ hk]
                rcases mem_tradeBookkeeping_open _ _ _ _ _ _ hkv with he | hm
                · exact absurd (by rw [he]) hk
                · exact hsub kv hm
  · intro p k hinv h0
    obtain ⟨hnp, hno, hz, hsub⟩ := hinv
    cases hf : mapFind? p.open_positions_info k with
    | none => rfl
    | some info =>
        have hmem := mapFind?_eq_some_mem hf
        have := hsub (k, info) hmem
        exact absurd ((hiff p k ⟨hnp, hno, hz, hsub⟩).mp h0) this
  · intro positions prices k x hf
    unfold positionsValue
    exact positionsValue_insert_absent_aux positions prices k x
      ((mapFind?_eq_none_iff positions k).mp hf) 0

/-- C10 witness: the invariant holds for a fresh portfolio and after a
concrete `recordTrade` call on it. -/
theorem positions_map_no_zero_witness :
    portfolioInv (recordTrade (Portfolio.init 100) 0 "NSE" SignalAction.enterLong 5 10 0) :=
  positions_map_no_zero.2.1 (Portfolio.init 100) 0 "NSE" SignalAction.enterLong 5 10 0
    (positions_map_no_zero.1 100)

/-- C8 counterexample: at execution price exactly `1e-9` the claim's
skip conditions do not hold (the price is not *below* `1e-9` and the
computed quantity `⌊A / price⌋ = 10^9` is positive), so the claim
requires an execution of `10^9` shares; the code's strict
`execution_price > 1e-9` test fails and nothing is executed — the
portfolio is returned unchanged and the position stays 0. -/
theorem executeSignal_price_epsilon_cex :
    (¬((1 : ℚ) / 1000000000 < min_execution_price)) ∧
    ⌊(1 : ℚ) / ((1 : ℚ) / 1000000000)⌋ = 1000000000 ∧
    executeSignal
        { sizing_method := SizingMethod.capitalBased, sizing_value := 1,
          is_sizing_value_percentage := false }
        20000000 "NSE" (Portfolio.init 20000000) 0
        { timestamp := 0, open_ := 1/1000000000, high := 1/1000000000,
          low := 1/1000000000, close := 1/1000000000, volume := 0 }
        SignalAction.enterLong =
      Portfolio.init 20000000 ∧
    getPositionQuantity
      (executeSignal
        { sizing_method := SizingMethod.capitalBased, sizing_value := 1,
          is_sizing_value_percentage := false }
        20000000 "NSE" (Portfolio.init 20000000) 0
        { timestamp := 0, open_ := 1/1000000000, high := 1/1000000000,
          low := 1/1000000000, close := 1/1000000000, volume := 0 }
        SignalAction.enterLong) "NSE" = 0 := by
  have hfloor : ⌊(1 : ℚ) / ((1 : ℚ) / 1000000000)⌋ = 1000000000 := by
    rw [show ((1 : ℚ) / ((1 : ℚ) / 1000000000)) = ((1000000000 : ℤ) : ℚ) by norm_num]
    exact Int.floor_intCast 1000000000
  have hexec : executeSignal
      { sizing_method := SizingMethod.capitalBased, sizing_value := 1,
        is_sizing_value_percentage := false }
      20000000 "NSE" (Portfolio.init 20000000) 0
      { timestamp := 0, open_ := 1/1000000000, high := 1/1000000000,
        low := 1/1000000000, close := 1/1000000000, volume := 0 }
      SignalAction.enterLong = Portfolio.init 20000000 := by
    simp only [executeSignal, computeEntryQuantity, getPositionQuantity, Portfolio.init,
      mapFind?, Option.getD_none]
    norm_num [min_execution_price]
  refine ⟨by norm_num [min_execution_price], hfloor, hexec, ?_⟩
  rw [hexec]
  rfl

/-- C8 (amended: the skip threshold is `execution_price ≤ 1e-9`, not
`< 1e-9`). For an accepted entry signal from a flat position:
under `CapitalBased(v, is_percentage)` sizing with
`A = is_percentage ? initial_capital·v/100 : v`, if the execution price
exceeds `1e-9` and `⌊A / price⌋ > 0` the signal is executed via
`recordTrade` with quantity `⌊A / price⌋` (and per-share commission),
while a non-positive computed quantity executes nothing; if the price is
`≤ 1e-9` nothing is executed and the portfolio is unchanged; under
`Quantity(n)` sizing the traded quantity is exactly `n`. -/
theorem executeSignal_quantity_translation (sizing : SizingConfig)
    (initial_capital : ℚ) (key : String) (p : Portfolio) (t : Int) (c : Candle)
    (hflat : getPositionQuantity p key = 0) (sig : SignalAction)
    (hsig : sig = SignalAction.enterLong ∨ sig = SignalAction.enterShort) :
    (sizing.sizing_method = SizingMethod.capitalBased →
      (min_execution_price < c.close →
        ((0 < ⌊(if sizing.is_sizing_value_percentage then
              initial_capital * (sizing.sizing_value / 100)
            else sizing.sizing_value) / c.close⌋ →
          executeSignal sizing initial_capital key p t c sig =
            recordTrade p t key sig
              ⌊(if sizing.is_sizing_value_percentage then
                  initial_capital * (sizing.sizing_value / 100)
                else sizing.sizing_value) / c.close⌋
              c.close
              (commission_per_share *
                (⌊(if sizing.is_sizing_value_percentage then
                    initial_capital * (sizing.sizing_value / 100)
                  else sizing.sizing_value) / c.close⌋ : ℚ))) ∧
        (⌊(if sizing.is_sizing_value_percentage then
              initial_capital * (sizing.sizing_value / 100)
            else sizing.sizing_value) / c.close⌋ ≤ 0 →
          executeSignal sizing initial_capital key p t c sig = p))) ∧
      (c.close ≤ min_execution_price →
        executeSignal sizing initial_capital key p t c sig = p)) ∧
    (sizing.sizing_method = SizingMethod.quantity →
      ∀ n : Int, 0 < n → sizing.sizing_value = (n : ℚ) →
        executeSignal sizing initial_capital key p t c sig =
          recordTrade p t key sig n c.close (commission_per_share * (n : ℚ))) := by
  have hentry : ∀ (q : Int),
      computeEntryQuantity sizing initial_capital c.close = q →
      (0 < q → executeSignal sizing initial_capital key p t c sig =
        recordTrade p t key sig q c.close (commission_per_share * (q : ℚ))) ∧
      (q ≤ 0 → executeSignal sizing initial_capital key p t c sig = p) := by
    intro q hq
    rcases hsig with hsig | hsig <;> subst hsig <;>
      constructor <;> intro hq0 <;>
        simp only [executeSignal, hflat, ne_eq, not_true_eq_false, if_false,
          reduceIte, hq] <;>
        first
          | (rw [if_pos hq0])
          | (rw [if_neg (by omega)])
  refine ⟨?_, ?_⟩
  · intro hcap
    constructor
    · intro hprice
      have hq : computeEntryQuantity sizing initial_capital c.close =
          ⌊(if sizing.is_sizing_value_percentage then
              initial_capital * (sizing.sizing_value / 100)
            else sizing.sizing_value) / c.close⌋ := by
        rw [computeEntryQuantity, hcap]
        rw [if_pos hprice]
      exact ⟨(hentry _ hq).1, (hentry _ hq).2⟩
    · intro hprice
      have hq : computeEntryQuantity sizing initial_capital c.close = 0 := by
        rw [computeEntryQuantity, hcap]
        rw [if_neg (by exact not_lt.mpr hprice)]
      exact (hentry 0 hq).2 le_rfl
  · intro hquant n hn hv
    have hq : computeEntryQuantity sizing initial_capital c.close = n := by
      rw [computeEntryQuantity, hquant, hv, cppTrunc, if_pos (by positivity)]
      exact Int.floor_intCast n
    exact (hentry n hq).1 hn

/-- C8 witness (spec §8 Scenario C): capital 10000, `CapitalBased(50%)`,
price 200 → quantity `⌊5000/200⌋ = 25`. -/
theorem executeSignal_quantity_translation_witness :
    executeSignal
        { sizing_method := SizingMethod.capitalBased, sizing_value := 50,
          is_sizing_value_percentage := true }
        10000 "NSE" (Portfolio.init 10000) 0
        { timestamp := 0, open_ := 200, high := 200, low := 200, close := 200, volume := 0 }
        SignalAction.enterLong =
      recordTrade (Portfolio.init 10000) 0 "NSE" SignalAction.enterLong 25 200
        (commission_per_share * (25 : ℚ)) := by
  have h := (executeSignal_quantity_translation
    { sizing_method := SizingMethod.capitalBased, sizing_value := 50,
      is_sizing_value_percentage := true }
    10000 "NSE" (Portfolio.init 10000) 0
    { timestamp := 0, open_ := 200, high := 200, low := 200, close := 200, volume := 0 }
    (by rfl) SignalAction.enterLong (Or.inl rfl)).1 rfl
  have h1 := (h.1 (by norm_num [min_execution_price])).1
  simp only [if_true] at h1
  rw [show ((10000 : ℚ) * ((50 : ℚ) / 100) / 200) = ((25 : ℤ) : ℚ) by norm_num,
    Int.floor_intCast] at h1
  exact h1 (by norm_num)

theorem positionStateOfQuantity_eq_none_iff (q : Int) :
    positionStateOfQuantity q = PositionState.none ↔ q = 0 := by
  unfold positionStateOfQuantity
  split_ifs <;> simp_all

theorem positionStateOfQuantity_eq_long_iff (q : Int) :
    positionStateOfQuantity q = PositionState.long ↔ 0 < q := by
  unfold positionStateOfQuantity
  split_ifs <;> simp_all

theorem positionStateOfQuantity_eq_short_iff (q : Int) :
    positionStateOfQuantity q = PositionState.short ↔ q < 0 := by
  unfold positionStateOfQuantity
  split_ifs <;> simp_all <;> omega

theorem firstEntryAction_cases (rules : List RuleFn) (s : MarketDataSnapshot) :
    firstEntryAction rules s = SignalAction.none ∨
    firstEntryAction rules s = SignalAction.enterLong ∨
    firstEntryAction rules s = SignalAction.enterShort := by
  induction rules with
  | nil => exact Or.inl rfl
  | cons r rest ih =>
      by_cases h : r s = SignalAction.enterLong ∨ r s = SignalAction.enterShort
      · rcases h with h | h <;> simp [firstEntryAction, h]
      · simpa [firstEntryAction, h] using ih

theorem firstExitAction_long_cases (rules : List RuleFn) (s : MarketDataSnapshot) :
    firstExitAction PositionState.long rules s = SignalAction.none ∨
    firstExitAction PositionState.long rules s = SignalAction.exitLong := by
  induction rules with
  | nil => exact Or.inl rfl
  | cons r rest ih =>
      by_cases h : r s = SignalAction.exitLong
      · simp [firstExitAction, h]
      · simpa [firstExitAction, h] using ih

theorem firstExitAction_short_cases (rules : List RuleFn) (s : MarketDataSnapshot) :
    firstExitAction PositionState.short rules s = SignalAction.none ∨
    firstExitAction PositionState.short rules s = SignalAction.exitShort := by
  induction rules with
  | nil => exact Or.inl rfl
  | cons r rest ih =>
      by_cases h : r s = SignalAction.exitShort
      · simp [firstExitAction, h]
      · simpa [firstExitAction, h] using ih

theorem getPositionQuantity_applyTradeAccepted (p : Portfolio) (t : Int) (key : String)
    (plan : TradePlan) (price comm : ℚ) (hnd : NodupKeys p.positions) :
    getPositionQuantity (applyTradeAccepted p t key plan price comm) key =
      getPositionQuantity p key + plan.position_change := by
  rw [show getPositionQuantity (applyTradeAccepted p t key plan price comm) key =
      (mapFind? (applyTradeAccepted p t key plan price comm).positions key).getD 0 from rfl,
    applyTradeAccepted_positions]
  split
  · rename_i h0
    rw [mapFind?_mapErase_self key hnd, Option.getD_none]
    omega
  · rw [mapFind?_mapInsert_self, Option.getD_some]

theorem executeSignal_enterLong_qty (sizing : SizingConfig) (cap : ℚ) (key : String)
    (p : Portfolio) (t : Int) (c : Candle)
    (hq0 : getPositionQuantity p key = 0) (hnd : NodupKeys p.positions) :
    getPositionQuantity (executeSignal sizing cap key p t c SignalAction.enterLong) key = 0 ∨
    0 < getPositionQuantity (executeSignal sizing cap key p t c SignalAction.enterLong) key := by
  simp only [executeSignal, hq0, ne_eq, not_true_eq_false, if_false, reduceIte]
  split
  · rename_i hQ
    unfold recordTrade
    rw [if_neg (by omega), hq0]
    simp only [tradePlan, if_neg (by omega : ¬(0 : Int) < 0)]
    split
    · exact Or.inl hq0
    · rw [getPositionQuantity_applyTradeAccepted _ _ _ _ _ _ hnd, hq0]
      right
      simpa using hQ
  · exact Or.inl hq0

theorem executeSignal_enterShort_qty (sizing : SizingConfig) (cap : ℚ) (key : String)
    (p : Portfolio) (t : Int) (c : Candle)
    (hq0 : getPositionQuantity p key = 0) (hnd : NodupKeys p.positions) :
    getPositionQuantity (executeSignal sizing cap key p t c SignalAction.enterShort) key = 0 ∨
    getPositionQuantity (executeSignal sizing cap key p t c SignalAction.enterShort) key < 0 := by
  simp only [executeSignal, hq0, ne_eq, not_true_eq_false, if_false, reduceIte]
  split
  · rename_i hQ
    unfold recordTrade
    rw [if_neg (by omega), hq0]
    simp only [tradePlan, if_neg (by omega : ¬(0 : Int) > 0)]
    split
    · exact Or.inl hq0
    · rw [getPositionQuantity_applyTradeAccepted _ _ _ _ _ _ hnd, hq0]
      right
      simpa using hQ
  · exact Or.inl hq0

/-- C3 counterexample: capital 100, `Quantity(10)` sizing, an entry rule
that fires at close 20. The strategy caches `Long` when it emits the
signal, but the execution is rejected for insufficient cash (cost 200.1),
so after the bar the portfolio quantity is 0 while the cached position is
`Long` — the claimed invariant fails on a bar whose accepted signal's
execution is skipped. -/
theorem processBar_position_sync_cex :
    (let cfg : BacktestConfig :=
      { primary_instrument_key := "NSE"
        initial_capital := 100
        sizing := SizingConfig.mk SizingMethod.quantity 10 false
        entry_rules := [fun _ => SignalAction.enterLong]
        exit_rules := []
        indicators := []
        indicator_results := [] }
     let st0 : LoopState :=
      { current_position := PositionState.none, portfolio := Portfolio.init 100 }
     let c : Candle :=
      { timestamp := 0, open_ := 20, high := 20, low := 20, close := 20, volume := 0 }
     (processBar cfg st0 0 c).current_position = PositionState.long ∧
       getPositionQuantity (processBar cfg st0 0 c).portfolio "NSE" = 0 ∧
       positionStateOfQuantity 0 = PositionState.none) := by
  refine ⟨rfl, ?_, rfl⟩
  show (mapFind? _ "NSE").getD 0 = 0
  norm_num [processBar, buildSnapshot, strategyEvaluate, firstEntryAction, updatePosition,
    executeSignal, computeEntryQuantity, cppTrunc, recordTrade, tradePlan, commission_per_share,
    getPositionQuantity, mapFind?, Portfolio.init, recordTimestampValue, positionsValue]

/-- C3 (amended). The invariant `strategy.position =
sign(portfolio.quantity)` holds after a bar provided the bar's accepted
signal was actually executed: if the strategy's cached position agrees
with the portfolio before the bar, and (for an emitted entry signal) the
post-bar position quantity is non-zero — i.e. the entry execution was not
skipped for insufficient cash or a non-positive computed quantity — and
(for an emitted exit signal) the post-bar quantity is zero — i.e. the
exit execution was not skipped — then the cached position equals the
sign of the portfolio quantity after the bar. On a bar whose accepted
entry execution is skipped the invariant fails
(`processBar_position_sync_cex`). -/
theorem processBar_position_sync (cfg : BacktestConfig) (st : LoopState) (i : Nat) (c : Candle)
    (hnd : NodupKeys st.portfolio.positions)
    (h1 : st.current_position =
      positionStateOfQuantity (getPositionQuantity st.portfolio cfg.primary_instrument_key))
    (h2 : ((strategyEvaluate st.current_position cfg.entry_rules cfg.exit_rules
            (buildSnapshot cfg.indicators cfg.indicator_results c i)).1 =
              SignalAction.enterLong ∨
          (strategyEvaluate st.current_position cfg.entry_rules cfg.exit_rules
            (buildSnapshot cfg.indicators cfg.indicator_results c i)).1 =
              SignalAction.enterShort) →
      getPositionQuantity (processBar cfg st i c).portfolio cfg.primary_instrument_key ≠ 0)
    (h3 : ((strategyEvaluate st.current_position cfg.entry_rules cfg.exit_rules
            (buildSnapshot cfg.indicators cfg.indicator_results c i)).1 =
              SignalAction.exitLong ∨
          (strategyEvaluate st.current_position cfg.entry_rules cfg.exit_rules
            (buildSnapshot cfg.indicators cfg.indicator_results c i)).1 =
              SignalAction.exitShort) →
      getPositionQuantity (processBar cfg st i c).portfolio cfg.primary_instrument_key = 0) :
    (processBar cfg st i c).current_position =
      positionStateOfQuantity
        (getPositionQuantity (processBar cfg st i c).portfolio cfg.primary_instrument_key) := by
  have hpp : (processBar cfg st i c).portfolio.positions =
      (if (strategyEvaluate st.current_position cfg.entry_rules cfg.exit_rules
            (buildSnapshot cfg.indicators cfg.indicator_results c i)).1 ≠ SignalAction.none then
        executeSignal cfg.sizing cfg.initial_capital cfg.primary_instrument_key st.portfolio
          (buildSnapshot cfg.indicators cfg.indicator_results c i).current_time c
          (strategyEvaluate st.current_position cfg.entry_rules cfg.exit_rules
            (buildSnapshot cfg.indicators cfg.indicator_results c i)).1
      else st.portfolio).positions := by
    show (recordTimestampValue _ _ _).positions = _
    rw [recordTimestampValue_positions]
  have hqif : getPositionQuantity (processBar cfg st i c).portfolio cfg.primary_instrument_key =
      getPositionQuantity
        (if (strategyEvaluate st.current_position cfg.entry_rules cfg.exit_rules
              (buildSnapshot cfg.indicators cfg.indicator_results c i)).1 ≠ SignalAction.none then
          executeSignal cfg.sizing cfg.initial_capital cfg.primary_instrument_key st.portfolio
            (buildSnapshot cfg.indicators cfg.indicator_results c i).current_time c
            (strategyEvaluate st.current_position cfg.entry_rules cfg.exit_rules
              (buildSnapshot cfg.indicators cfg.indicator_results c i)).1
        else st.portfolio) cfg.primary_instrument_key := by
    unfold getPositionQuantity
    rw [hpp]
  have hpos : (processBar cfg st i c).current_position =
      updatePosition st.current_position
        (strategyEvaluate st.current_position cfg.entry_rules cfg.exit_rules
          (buildSnapshot cfg.indicators cfg.indicator_results c i)).1 := rfl
  cases hcp : st.current_position
  case none =>
    have hq0 : getPositionQuantity st.portfolio cfg.primary_instrument_key = 0 :=
      (positionStateOfQuantity_eq_none_iff _).mp (by rw [← h1]; exact hcp)
    have hA : (strategyEvaluate st.current_position cfg.entry_rules cfg.exit_rules
          (buildSnapshot cfg.indicators cfg.indicator_results c i)).1 =
            SignalAction.none ∨
        (strategyEvaluate st.current_position cfg.entry_rules cfg.exit_rules
          (buildSnapshot cfg.indicators cfg.indicator_results c i)).1 =
            SignalAction.enterLong ∨
        (strategyEvaluate st.current_position cfg.entry_rules cfg.exit_rules
          (buildSnapshot cfg.indicators cfg.indicator_results c i)).1 =
            SignalAction.enterShort := by
      rw [show (strategyEvaluate st.current_position cfg.entry_rules cfg.exit_rules
          (buildSnapshot cfg.indicators cfg.indicator_results c i)).1 =
          firstEntryAction cfg.entry_rules
            (buildSnapshot cfg.indicators cfg.indicator_results c i) by rw [hcp]; rfl]
      exact firstEntryAction_cases _ _
    rcases hA with hA | hA | hA
    · have hq' : getPositionQuantity (processBar cfg st i c).portfolio
          cfg.primary_instrument_key = 0 := by
        rw [hqif, if_neg (by rw [hA]; exact fun h => h rfl)]
        exact hq0
      rw [hpos, hA, hcp, hq']
      rfl
    · have hne := h2 (Or.inl hA)
      have hq' : getPositionQuantity (processBar cfg st i c).portfolio
          cfg.primary_instrument_key =
          getPositionQuantity
            (executeSignal cfg.sizing cfg.initial_capital cfg.primary_instrument_key
              st.portfolio
              (buildSnapshot cfg.indicators cfg.indicator_results c i).current_time c
              SignalAction.enterLong) cfg.primary_instrument_key := by
        rw [hqif, if_pos (by rw [hA]; exact fun h => SignalAction.noConfusion h), hA]
      rcases executeSignal_enterLong_qty cfg.sizing cfg.initial_capital
          cfg.primary_instrument_key st.portfolio
          (buildSnapshot cfg.indicators cfg.indicator_results c i).current_time c
          hq0 hnd with h0 | hgt
      · exact absurd (hq'.trans h0) hne
      · rw [hpos, hA, hcp, hq']
        exact ((positionStateOfQuantity_eq_long_iff _).mpr hgt).symm
    · have hne := h2 (Or.inr hA)
      have hq' : getPositionQuantity (processBar cfg st i c).portfolio
          cfg.primary_instrument_key =
          getPositionQuantity
            (executeSignal cfg.sizing cfg.initial_capital cfg.primary_instrument_key
              st.portfolio
              (buildSnapshot cfg.indicators cfg.indicator_results c i).current_time c
              SignalAction.enterShort) cfg.primary_instrument_key := by
        rw [hqif, if_pos (by rw [hA]; exact fun h => SignalAction.noConfusion h), hA]
      rcases executeSignal_enterShort_qty cfg.sizing cfg.initial_capital
          cfg.primary_instrument_key st.portfolio
          (buildSnapshot cfg.indicators cfg.indicator_results c i).current_time c
          hq0 hnd with h0 | hlt
      · exact absurd (hq'.trans h0) hne
      · rw [hpos, hA, hcp, hq']
        exact ((positionStateOfQuantity_eq_short_iff _).mpr hlt).symm
  case long =>
    have hA : (strategyEvaluate st.current_position cfg.entry_rules cfg.exit_rules
          (buildSnapshot cfg.indicators cfg.indicator_results c i)).1 =
            SignalAction.none ∨
        (strategyEvaluate st.current_position cfg.entry_rules cfg.exit_rules
          (buildSnapshot cfg.indicators cfg.indicator_results c i)).1 =
            SignalAction.exitLong := by
      rw [show (strategyEvaluate st.current_position cfg.entry_rules cfg.exit_rules
          (buildSnapshot cfg.indicators cfg.indicator_results c i)).1 =
          firstExitAction PositionState.long cfg.exit_rules
            (buildSnapshot cfg.indicators cfg.indicator_results c i) by rw [hcp]; rfl]
      exact firstExitAction_long_cases _ _
    rcases hA with hA | hA
    · have hq' : getPositionQuantity (processBar cfg st i c).portfolio
          cfg.primary_instrument_key =
          getPositionQuantity st.portfolio cfg.primary_instrument_key := by
        rw [hqif, if_neg (by rw [hA]; exact fun h => h rfl)]
      rw [hpos, hA, hcp, hq']
      exact (h1.symm.trans hcp).symm
    · rw [hpos, hA, hcp, h3 (Or.inl hA)]
      rfl
  case short =>
    have hA : (strategyEvaluate st.current_position cfg.entry_rules cfg.exit_rules
          (buildSnapshot cfg.indicators cfg.indicator_results c i)).1 =
            SignalAction.none ∨
        (strategyEvaluate st.current_position cfg.entry_rules cfg.exit_rules
          (buildSnapshot cfg.indicators cfg.indicator_results c i)).1 =
            SignalAction.exitShort := by
      rw [show (strategyEvaluate st.current_position cfg.entry_rules cfg.exit_rules
          (buildSnapshot cfg.indicators cfg.indicator_results c i)).1 =
          firstExitAction PositionState.short cfg.exit_rules
            (buildSnapshot cfg.indicators cfg.indicator_results c i) by rw [hcp]; rfl]
      exact firstExitAction_short_cases _ _
    rcases hA with hA | hA
    · have hq' : getPositionQuantity (processBar cfg st i c).portfolio
          cfg.primary_instrument_key =
          getPositionQuantity st.portfolio cfg.primary_instrument_key := by
        rw [hqif, if_neg (by rw [hA]; exact fun h => h rfl)]
      rw [hpos, hA, hcp, hq']
      exact (h1.symm.trans hcp).symm
    · rw [hpos, hA, hcp, h3 (Or.inr hA)]
      rfl

/-- C3 witness: a bar on which no rule fires preserves the invariant. -/
theorem processBar_position_sync_witness :
    (processBar
      { primary_instrument_key := "NSE"
        initial_capital := 100
        sizing := SizingConfig.mk SizingMethod.quantity 10 false
        entry_rules := []
        exit_rules := []
        indicators := []
        indicator_results := [] }
      { current_position := PositionState.none, portfolio := Portfolio.init 100 }
      0 { timestamp := 0, open_ := 20, high := 20, low := 20, close := 20, volume := 0 }).current_position =
    positionStateOfQuantity
      (getPositionQuantity
        (processBar
          { primary_instrument_key := "NSE"
            initial_capital := 100
            sizing := SizingConfig.mk SizingMethod.quantity 10 false
            entry_rules := []
            exit_rules := []
            indicators := []
            indicator_results := [] }
          { current_position := PositionState.none, portfolio := Portfolio.init 100 }
          0 { timestamp := 0, open_ := 20, high := 20, low := 20, close := 20, volume := 0 }).portfolio
        "NSE") := by
  exact processBar_position_sync _ _ 0 _ List.Pairwise.nil (by decide)
    (fun h => by rcases h with h | h <;> exact SignalAction.noConfusion h)
    (fun h => by rcases h with h | h <;> exact SignalAction.noConfusion h)

theorem getLast?_mem_of_eq_some {α : Type} {l : List α} {a : α}
    (h : l.getLast? = Option.some a) : a ∈ l := by
  rcases List.mem_getLast?_eq_getLast (show a ∈ l.getLast? from h) with ⟨hne, ha⟩
  rw [ha]
  exact List.getLast_mem hne

theorem recordTimestampValue_equity_append (p : Portfolio) (t : Int)
    (prices : List (String × ℚ))
    (h : (p.equity_curve.getLast?.map PortfolioState.timestamp) ≠ Option.some t) :
    (recordTimestampValue p t prices).equity_curve =
      p.equity_curve ++
        [{ timestamp := t
           cash := p.cash
           positions_value := positionsValue p.positions prices
           total_equity := p.cash + positionsValue p.positions prices }] := by
  unfold recordTimestampValue
  rw [if_pos h]

theorem recordTimestampValue_equity_exists (q : Portfolio) (t : Int)
    (prices : List (String × ℚ))
    (h : (q.equity_curve.getLast?.map PortfolioState.timestamp) ≠ Option.some t) :
    ∃ sample : PortfolioState,
      (recordTimestampValue q t prices).equity_curve = q.equity_curve ++ [sample] ∧
      sample.timestamp = t ∧
      sample.total_equity = sample.cash + sample.positions_value :=
  ⟨_, recordTimestampValue_equity_append q t prices h, rfl, rfl⟩

theorem processBar_equity (cfg : BacktestConfig) (st : LoopState) (i : Nat) (c : Candle)
    (h : ∀ s ∈ st.portfolio.equity_curve, s.timestamp < c.timestamp) :
    ∃ sample : PortfolioState,
      (processBar cfg st i c).portfolio.equity_curve =
        st.portfolio.equity_curve ++ [sample] ∧
      sample.timestamp = c.timestamp ∧
      sample.total_equity = sample.cash + sample.positions_value := by
  have hqec : (if (strategyEvaluate st.current_position cfg.entry_rules cfg.exit_rules
          (buildSnapshot cfg.indicators cfg.indicator_results c i)).1 ≠ SignalAction.none then
        executeSignal cfg.sizing cfg.initial_capital cfg.primary_instrument_key st.portfolio
          (buildSnapshot cfg.indicators cfg.indicator_results c i).current_time c
          (strategyEvaluate st.current_position cfg.entry_rules cfg.exit_rules
            (buildSnapshot cfg.indicators cfg.indicator_results c i)).1
      else st.portfolio).equity_curve = st.portfolio.equity_curve := by
    split
    · exact executeSignal_equity_curve ..
    · rfl
  have hlast : (((if (strategyEvaluate st.current_position cfg.entry_rules cfg.exit_rules
          (buildSnapshot cfg.indicators cfg.indicator_results c i)).1 ≠ SignalAction.none then
        executeSignal cfg.sizing cfg.initial_capital cfg.primary_instrument_key st.portfolio
          (buildSnapshot cfg.indicators cfg.indicator_results c i).current_time c
          (strategyEvaluate st.current_position cfg.entry_rules cfg.exit_rules
            (buildSnapshot cfg.indicators cfg.indicator_results c i)).1
      else st.portfolio).equity_curve.getLast?.map PortfolioState.timestamp) ≠
        Option.some
          (buildSnapshot cfg.indicators cfg.indicator_results c i).current_time) := by
    show _ ≠ Option.some c.timestamp
    rw [hqec]
    cases hL : st.portfolio.equity_curve.getLast? with
    | none => simp
    | some s =>
        have hmem : s ∈ st.portfolio.equity_curve := getLast?_mem_of_eq_some hL
        have hlt := h s hmem
        intro heq
        simp only [Option.map_some', Option.some.injEq] at heq
        omega
  obtain ⟨sample, hs, hts, htot⟩ :=
    recordTimestampValue_equity_exists _ _ [(cfg.primary_instrument_key, c.close)] hlast
  refine ⟨sample, ?_, ?_, htot⟩
  · show (recordTimestampValue _ _ _).equity_curve = _
    rw [hs, hqec]
  · rw [hts]
    rfl

theorem foldl_processBar_equity (cfg : BacktestConfig) :
    ∀ (l : List (Nat × Candle)) (st : LoopState),
      List.Pairwise (· < ·) (l.map (fun pc => pc.2.timestamp)) →
      List.Pairwise (fun a b => a.timestamp < b.timestamp) st.portfolio.equity_curve →
      (∀ s ∈ st.portfolio.equity_curve, ∀ pc ∈ l, s.timestamp < pc.2.timestamp) →
      (∀ s ∈ st.portfolio.equity_curve, s.total_equity = s.cash + s.positions_value) →
      List.Pairwise (fun a b => a.timestamp < b.timestamp)
        (l.foldl (fun st pair => processBar cfg st pair.1 pair.2) st).portfolio.equity_curve ∧
      ∀ s ∈ (l.foldl (fun st pair => processBar cfg st pair.1 pair.2) st).portfolio.equity_curve,
        s.total_equity = s.cash + s.positions_value := by
  intro l
  induction l with
  | nil => exact fun st _ hpw _ htot => ⟨hpw, htot⟩
  | cons pc rest ih =>
      intro st hl hpw hlt htot
      rw [List.map_cons, List.pairwise_cons] at hl
      obtain ⟨sample, hs, hsts, hstot⟩ :=
        processBar_equity cfg st pc.1 pc.2 (fun s hsm => hlt s hsm pc (List.mem_cons_self _ _))
      rw [List.foldl_cons]
      refine ih (processBar cfg st pc.1 pc.2) hl.2 ?_ ?_ ?_
      · rw [hs, List.pairwise_append]
        refine ⟨hpw, List.pairwise_singleton _ _, ?_⟩
        intro a ha b hb
        rw [List.mem_singleton] at hb
        rw [hb, hsts]
        exact hlt a ha pc (List.mem_cons_self _ _)
      · intro s hsm pc' hpc'
        rw [hs, List.mem_append] at hsm
        rcases hsm with hsm | hsm
        · exact hlt s hsm pc' (List.mem_cons_of_mem _ hpc')
        · rw [List.mem_singleton] at hsm
          rw [hsm, hsts]
          exact hl.1 pc'.2.timestamp
            (List.mem_map_of_mem (fun pc : Nat × Candle => pc.2.timestamp) hpc')
      · intro s hsm
        rw [hs, List.mem_append] at hsm
        rcases hsm with hsm | hsm
        · exact htot s hsm
        · rw [List.mem_singleton] at hsm
          rw [hsm]
          exact hstot

/-- C9. `recordTimestampValue` appends a sample iff the curve is empty or
the last sample's timestamp differs from the given one (conjunct 1, as a
length equation), and for every run of the event loop over a candle
series with strictly increasing timestamps, starting from a fresh
portfolio, the equity curve has strictly increasing timestamps, never
holds two samples with the same timestamp, and every sample satisfies
`total_equity = cash + positions_value` (conjunct 2). -/
theorem equity_curve_strictly_increasing :
    (∀ (p : Portfolio) (t : Int) (prices : List (String × ℚ)),
      (recordTimestampValue p t prices).equity_curve.length =
        p.equity_curve.length +
          (if (p.equity_curve.getLast?.map PortfolioState.timestamp) ≠ Option.some t
            then 1 else 0)) ∧
    (∀ (cfg : BacktestConfig) (capital : ℚ) (primary_data : List Candle),
      List.Chain' (· < ·) (primary_data.map Candle.timestamp) →
      (let curve := (runEventLoop cfg primary_data
          { current_position := PositionState.none
            portfolio := Portfolio.init capital }).portfolio.equity_curve
       List.Chain' (fun a b => a.timestamp < b.timestamp) curve ∧
       List.Pairwise (fun a b => a.timestamp ≠ b.timestamp) curve ∧
       ∀ s ∈ curve, s.total_equity = s.cash + s.positions_value)) := by
  constructor
  · intro p t prices
    unfold recordTimestampValue
    split <;> rename_i h <;> simp [h]
  · intro cfg capital primary_data hchain
    have hpw : List.Pairwise (fun a b => a.timestamp < b.timestamp)
        (runEventLoop cfg primary_data
          { current_position := PositionState.none
            portfolio := Portfolio.init capital }).portfolio.equity_curve ∧
        ∀ s ∈ (runEventLoop cfg primary_data
          { current_position := PositionState.none
            portfolio := Portfolio.init capital }).portfolio.equity_curve,
          s.total_equity = s.cash + s.positions_value := by
      simp only [runEventLoop]
      split
      · constructor
        · exact List.Pairwise.nil
        · intro s hsm
          simp [Portfolio.init] at hsm
      · refine foldl_processBar_equity cfg _ _ ?_ List.Pairwise.nil ?_ ?_
        · rw [show (fun pc : Nat × Candle => pc.2.timestamp) =
              (Candle.timestamp ∘ Prod.snd) from rfl, ← List.map_map,
            List.enumFrom_map_snd, List.map_drop]
          exact List.Pairwise.sublist (List.drop_sublist _ _)
            (List.chain'_iff_pairwise.mp hchain)
        · intro s hsm
          simp [Portfolio.init] at hsm
        · intro s hsm
          simp [Portfolio.init] at hsm
    exact ⟨hpw.1.chain', hpw.1.imp (fun hab => by omega), hpw.2⟩

/-- C9 witness: two candles with timestamps 0 < 1 produce a curve with
strictly increasing timestamps. -/
theorem equity_curve_strictly_increasing_witness :
    (let curve := (runEventLoop
        { primary_instrument_key := "NSE"
          initial_capital := 100
          sizing := SizingConfig.mk SizingMethod.quantity 1 false
          entry_rules := []
          exit_rules := []
          indicators := []
          indicator_results := [] }
        [{ timestamp := 0, open_ := 1, high := 1, low := 1, close := 1, volume := 0 },
         { timestamp := 1, open_ := 2, high := 2, low := 2, close := 2, volume := 0 }]
        { current_position := PositionState.none
          portfolio := Portfolio.init 100 }).portfolio.equity_curve
     List.Chain' (fun a b => a.timestamp < b.timestamp) curve ∧
     List.Pairwise (fun a b => a.timestamp ≠ b.timestamp) curve ∧
     ∀ s ∈ curve, s.total_equity = s.cash + s.positions_value) := by
  exact equity_curve_strictly_increasing.2 _ 100 _ (by norm_num [List.chain'_cons])

end Trading
